import Mathlib

/-!
# Menu compute tab: job trigger and progress poller

Shallow embedding of `src/main/resources/assets/js/menu/menu-compute.js`.

The JavaScript file keeps one module-level flag (`__runningAlgorithm`) and talks
to the outside world through `$.getJSON`, `NProgress`, `console.log`,
`loadAllObjects` and `setTimeout`.  The embedding makes this explicit:

* every call into a collaborator is appended to an effect log (`State.effects`);
* every `$.getJSON` whose callbacks have not run yet is kept in a list of
  outstanding requests (`triggerRequests` for the requests issued by
  `computeInBackground`, `pingRequests` for the ones issued by
  `updateAlgorithmProgress`);
* every `setTimeout(updateAlgorithmProgress, 2500)` that has not fired yet is
  counted in `timers`;
* the single-threaded event loop is a step function over `Event`;
* a callback either returns or throws (`Completion`): reading a property of a
  `null` or `undefined` response body is a TypeError, and jQuery runs the
  callbacks of a settled request from one list without catching, so a throwing
  `.done` callback keeps the `.always` callback behind it from running;
* JavaScript numbers are IEEE-754 binary64 values (`Double`): `+` and `/` give
  the exact result rounded to nearest, ties to even.
-/

namespace MenuCompute

/-! ## JavaScript numbers -/

/-- A JavaScript number.  A non-zero finite double is given by its value. -/
inductive Double where
  | nan
  | infinity (negative : Bool)
  | zero (negative : Bool)
  | finite (q : ℚ)
  deriving DecidableEq

/-- The integer `e` with `2 ^ e ≤ |q| < 2 ^ (e + 1)`, for `q ≠ 0`.  The
difference of the bit lengths of numerator and denominator is `e` or `e + 1`. -/
def floorLog2 (q : ℚ) : ℤ :=
  let l : ℤ := (Nat.log2 q.num.natAbs : ℤ) - (Nat.log2 q.den : ℤ)
  if (2 : ℚ) ^ l ≤ |q| then l else l - 1

/-- Rounds to the nearest integer, a tie going to the even one. -/
def roundHalfEven (q : ℚ) : ℤ :=
  let f := ⌊q⌋
  let r := q - f
  if r < 1 / 2 then f else if 1 / 2 < r then f + 1 else if f % 2 = 0 then f else f + 1

/-- The binary64 value nearest to `q` (ties to even): a significand of 53 bits,
exponents from -1022 (subnormal numbers below) to 1023, overflow to infinity.
An exact zero is `+0`; a result that rounds to zero keeps the sign of `q`. -/
def Double.ofRat (q : ℚ) : Double :=
  if q = 0 then Double.zero false else
  let e := max (floorLog2 q) (-1022)
  let quantum : ℚ := 2 ^ (e - 52)
  let m := roundHalfEven (|q| / quantum)
  let r : ℚ := m * quantum
  if 2 ^ 1024 ≤ r then Double.infinity (decide (q < 0))
  else if m = 0 then Double.zero (decide (q < 0))
  else Double.finite (if q < 0 then -r else r)

/-- The number a JSON integer literal is parsed to. -/
def Double.ofInt (p : ℤ) : Double :=
  Double.ofRat (p : ℚ)

/-- The `+` of JavaScript on two numbers. -/
def Double.add : Double → Double → Double
  | Double.nan, _ => Double.nan
  | _, Double.nan => Double.nan
  | Double.infinity a, Double.infinity b => if a = b then Double.infinity a else Double.nan
  | Double.infinity a, _ => Double.infinity a
  | _, Double.infinity b => Double.infinity b
  | Double.zero a, Double.zero b => Double.zero (a && b)
  | Double.zero _, Double.finite y => Double.finite y
  | Double.finite x, Double.zero _ => Double.finite x
  | Double.finite x, Double.finite y => Double.ofRat (x + y)

/-- The `/` of JavaScript on two numbers. -/
def Double.div : Double → Double → Double
  | Double.nan, _ => Double.nan
  | _, Double.nan => Double.nan
  | Double.infinity _, Double.infinity _ => Double.nan
  | Double.infinity a, Double.zero b => Double.infinity (a != b)
  | Double.infinity a, Double.finite y => Double.infinity (a != decide (y < 0))
  | Double.zero _, Double.zero _ => Double.nan
  | Double.zero a, Double.infinity b => Double.zero (a != b)
  | Double.zero a, Double.finite y => Double.zero (a != decide (y < 0))
  | Double.finite x, Double.infinity b => Double.zero (decide (x < 0) != b)
  | Double.finite x, Double.zero b => Double.infinity (decide (x < 0) != b)
  | Double.finite x, Double.finite y => Double.ofRat (x / y)

/-- The number is finite and its value lies between `lo` and `hi`. -/
def Double.InRange (lo hi : ℚ) : Double → Prop
  | Double.finite q => lo ≤ q ∧ q ≤ hi
  | Double.zero _ => lo ≤ 0 ∧ 0 ≤ hi
  | _ => False

instance Double.decidableInRange (lo hi : ℚ) (d : Double) :
    Decidable (Double.InRange lo hi d) := by
  cases d <;> unfold Double.InRange <;> infer_instance

/-! ## Data -/

/-- The JavaScript values a JSON response field can hold. -/
inductive JSValue where
  | undefined
  | null
  | bool (b : Bool)
  | number (d : Double)
  | string (s : String)
  deriving DecidableEq

/-- The test `v === false` of JavaScript: true only for the boolean `false`. -/
def JSValue.strictEqFalse : JSValue → Bool
  | JSValue.bool false => true
  | _ => false

/-- Calls into the collaborators of the file, in the order they are made. -/
inductive Effect where
  | getJSON (url : String)
  | nprogressConfigure (trickle showSpinner : Bool) (minimum : ℚ)
  | nprogressStart
  | nprogressSet (n : Double)
  | nprogressDone
  | loadAllObjects
  | consoleLog
  | setTimeout (delay : Nat)
  deriving DecidableEq

/-- The fields of a trigger endpoint's response that the callbacks read. -/
structure TriggerResponse where
  error : JSValue
  errorMessage : JSValue
  deriving DecidableEq

/-- The field of the ping endpoint's response that the callback reads; it is
taken to hold a number. -/
structure PingResponse where
  algorithmProcess : Double
  deriving DecidableEq

/-- The `return_data` argument of a `.done` callback: `undefined` when the
response has no content (status 204), `null` when the body is the JSON text
`null`, otherwise a value whose properties can be read. -/
inductive ResponseBody (α : Type) where
  | absent
  | null
  | object (fields : α)
  deriving DecidableEq

/-- The modelled state: the global `currentUrl` of the hosting page, the flag
`__runningAlgorithm`, the effect log, and what the event loop still owes. -/
structure State where
  currentUrl : String
  runningAlgorithm : Bool
  effects : List Effect
  triggerRequests : List String
  pingRequests : List String
  timers : Nat
  deriving DecidableEq

/-- How a callback ends: it returns, or it throws; either way in some state. -/
inductive Completion where
  | returned (s : State)
  | threw (s : State)
  deriving DecidableEq

/-- The state in which a callback ended. -/
def Completion.state : Completion → State
  | Completion.returned s => s
  | Completion.threw s => s

/-! ## The functions of the file -/

/-- Appends one collaborator call to the effect log. -/
def emit (s : State) (e : Effect) : State :=
  { s with effects := s.effects ++ [e] }

/-- Source: `isAlgorithmRunning`, lines 66-68. -/
def isAlgorithmRunning (s : State) : Bool :=
  s.runningAlgorithm == true

/-- Source: `updateAlgorithmProgress`, lines 95-106, up to the point where the
function returns (the `.done` callback is `pingDoneCallback`). -/
def updateAlgorithmProgress (s : State) : State :=
  if isAlgorithmRunning s then
    let s1 := emit s (Effect.getJSON (s.currentUrl ++ "/ping"))
    { s1 with pingRequests := s1.pingRequests ++ [s.currentUrl ++ "/ping"] }
  else
    s

/-- The display fraction computed on line 100: `(progress + 10)/110`. -/
def progressFraction (progress : Double) : Double :=
  Double.div (Double.add progress (Double.finite 10)) (Double.finite 110)

/-- Source: the `.done` callback of the ping request, lines 98-104.  Line 99
reads a property of `return_data` and throws when it is `undefined` or `null`,
before anything else is done. -/
def pingDoneCallback (s : State) (return_data : ResponseBody PingResponse) : Completion :=
  match return_data with
  | ResponseBody.absent => Completion.threw s
  | ResponseBody.null => Completion.threw s
  | ResponseBody.object fields =>
      let progress := fields.algorithmProcess
      let progress := progressFraction progress
      let s1 := emit s (Effect.nprogressSet progress)
      let s2 := emit s1 (Effect.setTimeout 2500)
      Completion.returned { s2 with timers := s2.timers + 1 }

/-- Source: `startAlgorithm`, lines 73-82. -/
def startAlgorithm (s : State) : State :=
  let s1 := { s with runningAlgorithm := true }
  let s2 := emit s1 (Effect.nprogressConfigure false false (8 / 100))
  let s3 := emit s2 Effect.nprogressStart
  updateAlgorithmProgress s3

/-- Source: `finishAlgorithm`, lines 87-90. -/
def finishAlgorithm (s : State) : State :=
  let s1 := emit s Effect.nprogressDone
  { s1 with runningAlgorithm := false }

/-- Source: `computeInBackground`, lines 41-60, up to the point where the
function returns (the callbacks are `triggerDoneCallback`,
`triggerFailCallback` and `triggerAlwaysCallback`). -/
def computeInBackground (s : State) (url : String) : State :=
  if !isAlgorithmRunning s then
    let s1 := startAlgorithm s
    let s2 := emit s1 (Effect.getJSON url)
    { s2 with triggerRequests := s2.triggerRequests ++ [url] }
  else
    s

/-- Source: `computeBundles`, lines 16-19. -/
def computeBundles (s : State) : State :=
  let url := s.currentUrl ++ "/compute_bundles"
  computeInBackground s url

/-- Source: `computeRoadNetwork`, lines 24-27. -/
def computeRoadNetwork (s : State) : State :=
  let url := s.currentUrl ++ "/compute_network"
  computeInBackground s url

/-- Source: `computeBundlesAndRoadMap`, lines 32-35. -/
def computeBundlesAndRoadMap (s : State) : State :=
  let url := s.currentUrl ++ "/compute_bundles_and_network"
  computeInBackground s url

/-- Source: the `.done` callback of the trigger request, lines 45-52.  Line 46
reads a property of `return_data` and throws when it is `undefined` or `null`,
before anything else is done. -/
def triggerDoneCallback (s : State) (return_data : ResponseBody TriggerResponse) :
    Completion :=
  match return_data with
  | ResponseBody.absent => Completion.threw s
  | ResponseBody.null => Completion.threw s
  | ResponseBody.object fields =>
      if fields.error.strictEqFalse then
        Completion.returned (emit s Effect.loadAllObjects)
      else
        Completion.returned (emit (emit s Effect.consoleLog) Effect.consoleLog)

/-- Source: the `.fail` callback of the trigger request, lines 53-55. -/
def triggerFailCallback (s : State) : State :=
  emit s Effect.consoleLog

/-- Source: the `.always` callback of the trigger request, lines 56-58. -/
def triggerAlwaysCallback (s : State) : State :=
  finishAlgorithm s

/-- The ways a trigger request can settle. -/
inductive TriggerOutcome where
  | success (return_data : ResponseBody TriggerResponse)
  | failure
  deriving DecidableEq

/-- The callbacks jQuery runs when a trigger request settles, in the order they
were attached: `.done` or `.fail`, then `.always`.  When the `.done` callback
throws, the exception leaves the callback list and `.always` is not run. -/
def settleTrigger (s : State) (o : TriggerOutcome) : State :=
  match o with
  | TriggerOutcome.success return_data =>
      match triggerDoneCallback s return_data with
      | Completion.returned s1 => triggerAlwaysCallback s1
      | Completion.threw s1 => s1
  | TriggerOutcome.failure =>
      triggerAlwaysCallback (triggerFailCallback s)

/-! ## The event loop -/

/-- What the event loop can deliver to this file. -/
inductive Event where
  | callComputeBundles
  | callComputeRoadNetwork
  | callComputeBundlesAndRoadMap
  | callComputeInBackground (url : String)
  | triggerSettles (i : Nat) (o : TriggerOutcome)
  | pingResponds (i : Nat) (return_data : ResponseBody PingResponse)
  | pingFails (i : Nat)
  | timerFires
  deriving DecidableEq

/-- One turn of the event loop.  An event that refers to a request or timer
that is not outstanding cannot happen (`none`).  A ping request has only a
`.done` callback, so its failure runs no code of this file.  An exception that
leaves a callback ends the turn; the loop goes on. -/
def step (s : State) : Event → Option State
  | Event.callComputeBundles => some (computeBundles s)
  | Event.callComputeRoadNetwork => some (computeRoadNetwork s)
  | Event.callComputeBundlesAndRoadMap => some (computeBundlesAndRoadMap s)
  | Event.callComputeInBackground url => some (computeInBackground s url)
  | Event.triggerSettles i o =>
      if i < s.triggerRequests.length then
        some (settleTrigger { s with triggerRequests := s.triggerRequests.eraseIdx i } o)
      else none
  | Event.pingResponds i return_data =>
      if i < s.pingRequests.length then
        some (pingDoneCallback
          { s with pingRequests := s.pingRequests.eraseIdx i } return_data).state
      else none
  | Event.pingFails i =>
      if i < s.pingRequests.length then
        some { s with pingRequests := s.pingRequests.eraseIdx i }
      else none
  | Event.timerFires =>
      if 0 < s.timers then
        some (updateAlgorithmProgress { s with timers := s.timers - 1 })
      else none

/-- Runs a sequence of events from a state. -/
def run (s : State) : List Event → Option State
  | [] => some s
  | e :: es =>
      match step s e with
      | some s1 => run s1 es
      | none => none

/-- The state when the script has just been loaded on a page with base URL
`base`: flag false (line 11), nothing logged, nothing outstanding. -/
def initial (base : String) : State :=
  { currentUrl := base, runningAlgorithm := false, effects := [],
    triggerRequests := [], pingRequests := [], timers := 0 }

/-- The event ends a poll chain: a ping request fails at transport level, or is
answered with no body or the body `null`, so that its callback is not run or
throws before it reaches `setTimeout`. -/
def Event.endsPollChain : Event → Bool
  | Event.pingFails _ => true
  | Event.pingResponds _ ResponseBody.absent => true
  | Event.pingResponds _ ResponseBody.null => true
  | _ => false

/-- A poll operation is pending: a ping request is outstanding or a
re-invocation of `updateAlgorithmProgress` is scheduled. -/
def PollPending (s : State) : Prop :=
  s.pingRequests ≠ [] ∨ 0 < s.timers

/-- The event sequence of the overlapping-chains scenario: trigger A, A's
request settles, A's ping responds, trigger B, the scheduled re-invocation
fires. -/
def overlapScenario : List Event :=
  [Event.callComputeBundles,
   Event.triggerSettles 0 (TriggerOutcome.success
     (ResponseBody.object ⟨JSValue.bool false, JSValue.undefined⟩)),
   Event.pingResponds 0 (ResponseBody.object ⟨Double.finite 50⟩),
   Event.callComputeRoadNetwork,
   Event.timerFires]

/-- A run in which the first job loses its poll chain to a ping failure and
then fails itself, leaving the page idle. -/
def earlierJobEvents : List Event :=
  [Event.callComputeBundles, Event.pingFails 0,
   Event.triggerSettles 0 TriggerOutcome.failure]

/-- The second job of the same page: a trigger, then its ping is answered. -/
def laterJobEvents : List Event :=
  [Event.callComputeRoadNetwork,
   Event.pingResponds 0 (ResponseBody.object ⟨Double.finite 50⟩)]

/-- The idle state after `earlierJobEvents` on a page with base URL "h". -/
def idleAfterEarlierJob : State :=
  (run (initial "h") earlierJobEvents).getD (initial "h")

/-- The state after `laterJobEvents` from `idleAfterEarlierJob`. -/
def duringLaterJob : State :=
  (run idleAfterEarlierJob laterJobEvents).getD (initial "h")

/-! ## The trigger guard -/

/-- C1: when the running flag is true, `computeInBackground url` returns the
state it was given, for every url: nothing is appended to the effect log (no
GET to the endpoint or to ping, no NProgress call, no setTimeout), no request
or timer becomes outstanding and the flag keeps its value; the same holds for
the three named triggers, which delegate to it. -/
theorem computeInBackground_running_noop (s : State) (url : String)
    (h : s.runningAlgorithm = true) :
    computeInBackground s url = s ∧ computeBundles s = s ∧
      computeRoadNetwork s = s ∧ computeBundlesAndRoadMap s = s := by
  simp [computeBundles, computeRoadNetwork, computeBundlesAndRoadMap,
    computeInBackground, isAlgorithmRunning, h]

/-- Witness for C1 at the state right after `computeBundles` on a fresh page. -/
theorem computeInBackground_running_noop_witness :
    (computeBundles (initial "h")).runningAlgorithm = true ∧
      (computeInBackground (computeBundles (initial "h")) "h/compute_network"
          = computeBundles (initial "h") ∧
        computeBundles (computeBundles (initial "h")) = computeBundles (initial "h") ∧
        computeRoadNetwork (computeBundles (initial "h")) = computeBundles (initial "h") ∧
        computeBundlesAndRoadMap (computeBundles (initial "h"))
          = computeBundles (initial "h")) :=
  ⟨rfl, computeInBackground_running_noop (computeBundles (initial "h"))
    "h/compute_network" rfl⟩

/-- C2: when the running flag is false, the state in which
`computeInBackground url` returns has the flag true (so `isAlgorithmRunning`
answers true), the effect log extended by exactly
`NProgress.configure`, `NProgress.start`, the poller's GET to base + /ping and
one GET to `url`, and exactly one new outstanding trigger request, to `url`;
no callback of either request has run yet. -/
theorem computeInBackground_idle_starts (s : State) (url : String)
    (h : s.runningAlgorithm = false) :
    (computeInBackground s url).runningAlgorithm = true ∧
      isAlgorithmRunning (computeInBackground s url) = true ∧
      (computeInBackground s url).effects =
        s.effects ++ [Effect.nprogressConfigure false false (8 / 100),
          Effect.nprogressStart, Effect.getJSON (s.currentUrl ++ "/ping"),
          Effect.getJSON url] ∧
      (computeInBackground s url).triggerRequests = s.triggerRequests ++ [url] ∧
      (computeInBackground s url).pingRequests =
        s.pingRequests ++ [s.currentUrl ++ "/ping"] ∧
      (computeInBackground s url).timers = s.timers ∧
      (computeInBackground s url).currentUrl = s.currentUrl := by
  simp [computeInBackground, startAlgorithm, updateAlgorithmProgress,
    isAlgorithmRunning, emit, h]

/-- Witness for C2 at the initial state of a page with base URL "h". -/
theorem computeInBackground_idle_starts_witness :
    (initial "h").runningAlgorithm = false ∧
      ((computeInBackground (initial "h") "h/x").runningAlgorithm = true ∧
      isAlgorithmRunning (computeInBackground (initial "h") "h/x") = true ∧
      (computeInBackground (initial "h") "h/x").effects =
        (initial "h").effects ++ [Effect.nprogressConfigure false false (8 / 100),
          Effect.nprogressStart, Effect.getJSON ((initial "h").currentUrl ++ "/ping"),
          Effect.getJSON "h/x"] ∧
      (computeInBackground (initial "h") "h/x").triggerRequests =
        (initial "h").triggerRequests ++ ["h/x"] ∧
      (computeInBackground (initial "h") "h/x").pingRequests =
        (initial "h").pingRequests ++ [(initial "h").currentUrl ++ "/ping"] ∧
      (computeInBackground (initial "h") "h/x").timers = (initial "h").timers ∧
      (computeInBackground (initial "h") "h/x").currentUrl = (initial "h").currentUrl) :=
  ⟨rfl, computeInBackground_idle_starts (initial "h") "h/x" rfl⟩

/-! ## Settlement of a trigger request -/

/-- C3, at the failing input: the request issued by `computeBundles` on a fresh
page is answered with the body `null`.  The settlement is accepted, line 46
throws, `.always` is not run: the running flag is still true, `NProgress.done`
has not been called, and no trigger request is outstanding any more. -/
theorem triggerSettles_null_body_skips_teardown :
    (step (computeBundles (initial "h"))
        (Event.triggerSettles 0 (TriggerOutcome.success ResponseBody.null))).map
        (fun t => (t.runningAlgorithm, t.effects.count Effect.nprogressDone,
          t.triggerRequests))
      = some (true, 0, []) := by
  decide

/-- For a response body whose properties can be read, and for a transport
failure, the teardown does run: the flag ends false and `NProgress.done` is
called exactly once. -/
theorem settleTrigger_finishes_of_readable_body (s : State) (d : TriggerResponse) :
    ((settleTrigger s (TriggerOutcome.success (ResponseBody.object d))).runningAlgorithm
        = false ∧
      (settleTrigger s (TriggerOutcome.success (ResponseBody.object d))).effects.count
        Effect.nprogressDone = s.effects.count Effect.nprogressDone + 1) ∧
    ((settleTrigger s TriggerOutcome.failure).runningAlgorithm = false ∧
      (settleTrigger s TriggerOutcome.failure).effects.count Effect.nprogressDone
        = s.effects.count Effect.nprogressDone + 1) := by
  constructor
  · by_cases hd : d.error.strictEqFalse = true <;>
      simp [settleTrigger, triggerAlwaysCallback, finishAlgorithm, triggerDoneCallback,
        emit, hd, List.count_append, List.count_cons]
  · simp [settleTrigger, triggerAlwaysCallback, finishAlgorithm, triggerFailCallback,
      emit, List.count_append, List.count_cons]

/-- C4: the settlement callbacks call `loadAllObjects` exactly once when the
response has `error` equal to the boolean false, and not at all when `error`
is true (or any other value), when the body is absent or `null`, or when the
request fails at transport level. -/
theorem settleTrigger_loadAllObjects (s : State) (d : TriggerResponse) (m : JSValue) :
    (settleTrigger s (TriggerOutcome.success
        (ResponseBody.object ⟨JSValue.bool false, m⟩))).effects.count
        Effect.loadAllObjects = s.effects.count Effect.loadAllObjects + 1 ∧
      (settleTrigger s (TriggerOutcome.success
        (ResponseBody.object ⟨JSValue.bool true, m⟩))).effects.count
        Effect.loadAllObjects = s.effects.count Effect.loadAllObjects ∧
      (settleTrigger s TriggerOutcome.failure).effects.count
        Effect.loadAllObjects = s.effects.count Effect.loadAllObjects ∧
      (settleTrigger s (TriggerOutcome.success (ResponseBody.object d))).effects.count
          Effect.loadAllObjects
        = s.effects.count Effect.loadAllObjects +
            (if d.error = JSValue.bool false then 1 else 0) ∧
      (settleTrigger s (TriggerOutcome.success ResponseBody.absent)).effects.count
        Effect.loadAllObjects = s.effects.count Effect.loadAllObjects ∧
      (settleTrigger s (TriggerOutcome.success ResponseBody.null)).effects.count
        Effect.loadAllObjects = s.effects.count Effect.loadAllObjects := by
  refine ⟨?_, ?_, ?_, ?_, rfl, rfl⟩
  · simp [settleTrigger, triggerAlwaysCallback, finishAlgorithm, triggerDoneCallback,
      emit, JSValue.strictEqFalse, List.count_append, List.count_cons]
  · simp [settleTrigger, triggerAlwaysCallback, finishAlgorithm, triggerDoneCallback,
      emit, JSValue.strictEqFalse, List.count_append, List.count_cons]
  · simp [settleTrigger, triggerAlwaysCallback, finishAlgorithm, triggerFailCallback,
      emit, List.count_append, List.count_cons]
  · obtain ⟨e, msg⟩ := d
    cases e with
    | bool b =>
        cases b <;>
          simp [settleTrigger, triggerAlwaysCallback, finishAlgorithm,
            triggerDoneCallback, emit, JSValue.strictEqFalse, List.count_append,
            List.count_cons]
    | _ =>
        simp [settleTrigger, triggerAlwaysCallback, finishAlgorithm,
          triggerDoneCallback, emit, JSValue.strictEqFalse, List.count_append,
          List.count_cons]

/-! ## The progress fraction -/

/-- An integer-valued rational rounds to itself. -/
theorem roundHalfEven_intCast (z : ℤ) : roundHalfEven (z : ℚ) = z := by
  simp [roundHalfEven]

/-- A non-zero integer of magnitude below `2 ^ 53` is a double: rounding leaves
it as it is. -/
theorem ofRat_intCast (n : ℤ) (h0 : n ≠ 0) (hn : n.natAbs < 2 ^ 53) :
    Double.ofRat (n : ℚ) = Double.finite (n : ℚ) := by
  have hna : n.natAbs ≠ 0 := by simpa using h0
  have hL : n.natAbs.log2 < 53 := (Nat.log2_lt hna).2 hn
  have hpow : 2 ^ n.natAbs.log2 ≤ n.natAbs := Nat.log2_self_le hna
  have habs : |(n : ℚ)| = (n.natAbs : ℚ) := by
    rw [Nat.cast_natAbs, Int.cast_abs]
  have hfl : floorLog2 (n : ℚ) = (n.natAbs.log2 : ℤ) := by
    unfold floorLog2
    simp only [Rat.intCast_num, Rat.intCast_den]
    have h1 : Nat.log2 1 = 0 := by simpa using Nat.log2_two_pow (n := 0)
    simp only [h1, Nat.cast_zero, sub_zero, zpow_natCast, habs]
    rw [if_pos]
    exact_mod_cast hpow
  obtain ⟨k, hk⟩ : ∃ k : ℕ, n.natAbs.log2 + k = 52 := ⟨52 - n.natAbs.log2, by omega⟩
  have hexp : ((n.natAbs.log2 : ℤ) - 52) = -(k : ℤ) := by omega
  have hq : |(n : ℚ)| / 2 ^ ((n.natAbs.log2 : ℤ) - 52) = ((n.natAbs * 2 ^ k : ℤ) : ℚ) := by
    rw [hexp, habs, zpow_neg, zpow_natCast]
    push_cast
    field_simp
    exact habs.symm
  have hmax : max (n.natAbs.log2 : ℤ) (-1022) = (n.natAbs.log2 : ℤ) := by
    apply max_eq_left
    omega
  have hr : (((n.natAbs * 2 ^ k : ℤ) : ℚ)) * 2 ^ ((n.natAbs.log2 : ℤ) - 52)
      = (n.natAbs : ℚ) := by
    rw [hexp, zpow_neg, zpow_natCast]
    push_cast
    field_simp
    exact habs
  have hn0 : (n : ℚ) ≠ 0 := by exact_mod_cast h0
  have hlt : ¬ ((2 : ℚ) ^ 1024 ≤ (n.natAbs : ℚ)) := by
    have h2 : (n.natAbs : ℚ) < 2 ^ 53 := by exact_mod_cast hn
    have h3 : (2 : ℚ) ^ 53 ≤ 2 ^ 1024 := by
      apply pow_le_pow_right₀ <;> norm_num
    linarith
  have hm : ¬ ((n.natAbs : ℤ) * 2 ^ k = 0) := by
    have hpos : (0 : ℤ) < (n.natAbs : ℤ) * 2 ^ k := by positivity
    omega
  unfold Double.ofRat
  simp only [hn0, if_false, hfl, hmax, hq, roundHalfEven_intCast]
  rw [hr]
  simp only [hlt, if_false, hm]
  congr 1
  by_cases hneg : (n : ℚ) < 0
  · simp only [hneg, if_true]
    rw [← habs, abs_of_neg hneg]
    ring
  · simp only [hneg, if_false]
    rw [← habs, abs_of_nonneg (not_lt.1 hneg)]

/-- For an integer `p` such that `p` and `p + 10` are doubles, the two roundings
of `(p + 10)/110` (of the sum, then of the quotient) amount to one rounding of
the exact quotient. -/
theorem progressFraction_ofInt (p : ℤ) (hlo : -2 ^ 53 < p) (hhi : p + 10 < 2 ^ 53) :
    progressFraction (Double.ofInt p) = Double.ofRat (((p : ℚ) + 10) / 110) := by
  have hsum : Double.add (Double.ofInt p) (Double.finite 10)
      = Double.ofRat ((p : ℚ) + 10) := by
    by_cases hp : p = 0
    · subst hp
      have h10 : Double.ofRat (((10 : ℤ) : ℚ)) = Double.finite ((10 : ℤ) : ℚ) :=
        ofRat_intCast 10 (by decide) (by decide)
      simp only [Double.ofInt, Int.cast_zero, zero_add]
      rw [show Double.ofRat 0 = Double.zero false by simp [Double.ofRat]]
      simp only [Double.add]
      norm_num at h10
      exact h10.symm
    · have hfin : Double.ofInt p = Double.finite (p : ℚ) :=
        ofRat_intCast p hp (by omega)
      rw [hfin]
      rfl
  unfold progressFraction
  rw [hsum]
  by_cases hz : p + 10 = 0
  · have hq : (p : ℚ) + 10 = 0 := by exact_mod_cast hz
    rw [hq]
    simp [Double.ofRat, Double.div]
  · have hfin : Double.ofRat ((p : ℚ) + 10) = Double.finite ((p : ℚ) + 10) := by
      have h := ofRat_intCast (p + 10) hz (by omega)
      push_cast at h
      exact h
    rw [hfin]
    rfl

/-- The exponent found by `floorLog2` brackets a positive rational between two
consecutive powers of two. -/
theorem floorLog2_spec (q : ℚ) (hq : 0 < q) :
    (2 : ℚ) ^ floorLog2 q ≤ q ∧ q < (2 : ℚ) ^ (floorLog2 q + 1) := by
  have hnum : 0 < q.num := Rat.num_pos.2 hq
  have hn0 : q.num.natAbs ≠ 0 := by
    intro h
    rw [Int.natAbs_eq_zero] at h
    omega
  have hd0 : q.den ≠ 0 := q.den_nz
  have hmul : q * (q.den : ℚ) = (q.num.natAbs : ℚ) := by
    rw [Rat.mul_den_eq_num, Nat.cast_natAbs, abs_of_pos hnum]
  have hnlo : ((2 : ℚ) ^ q.num.natAbs.log2) ≤ (q.num.natAbs : ℚ) := by
    exact_mod_cast Nat.log2_self_le hn0
  have hnhi : (q.num.natAbs : ℚ) < (2 : ℚ) ^ q.num.natAbs.log2 * 2 := by
    have h := Nat.lt_log2_self (n := q.num.natAbs)
    rw [pow_succ] at h
    exact_mod_cast h
  have hdlo : ((2 : ℚ) ^ q.den.log2) ≤ (q.den : ℚ) := by
    exact_mod_cast Nat.log2_self_le hd0
  have hdhi : (q.den : ℚ) < (2 : ℚ) ^ q.den.log2 * 2 := by
    have h := Nat.lt_log2_self (n := q.den)
    rw [pow_succ] at h
    exact_mod_cast h
  have hpb : (0 : ℚ) < (2 : ℚ) ^ q.den.log2 := by positivity
  have hl : (2 : ℚ) ^ ((q.num.natAbs.log2 : ℤ) - (q.den.log2 : ℤ))
      = (2 : ℚ) ^ q.num.natAbs.log2 / (2 : ℚ) ^ q.den.log2 := by
    rw [zpow_sub₀ (by norm_num : (2 : ℚ) ≠ 0), zpow_natCast, zpow_natCast]
  have habs : |q| = q := abs_of_pos hq
  unfold floorLog2
  simp only [habs]
  split_ifs with h
  · refine ⟨h, ?_⟩
    rw [zpow_add_one₀ (by norm_num : (2 : ℚ) ≠ 0), hl, div_mul_eq_mul_div,
      lt_div_iff₀ hpb]
    calc q * (2 : ℚ) ^ q.den.log2 ≤ q * (q.den : ℚ) :=
          mul_le_mul_of_nonneg_left hdlo hq.le
      _ = (q.num.natAbs : ℚ) := hmul
      _ < (2 : ℚ) ^ q.num.natAbs.log2 * 2 := hnhi
  · push_neg at h
    constructor
    · rw [zpow_sub_one₀ (by norm_num : (2 : ℚ) ≠ 0), hl, ← div_eq_mul_inv, div_div,
        div_le_iff₀ (by positivity)]
      calc (2 : ℚ) ^ q.num.natAbs.log2 ≤ (q.num.natAbs : ℚ) := hnlo
        _ = q * (q.den : ℚ) := hmul.symm
        _ ≤ q * ((2 : ℚ) ^ q.den.log2 * 2) := mul_le_mul_of_nonneg_left hdhi.le hq.le
    · simpa using h

/-- Rounding to nearest does not go below an integer that the argument exceeds
by more than a half less. -/
theorem le_roundHalfEven (x : ℚ) (n : ℤ) (h : (n : ℚ) - 1 / 2 < x) :
    n ≤ roundHalfEven x := by
  have h1 : ((⌊x⌋ : ℤ) : ℚ) ≤ x := Int.floor_le x
  have h2 : x < ((⌊x⌋ : ℤ) : ℚ) + 1 := Int.lt_floor_add_one x
  unfold roundHalfEven
  simp only
  split_ifs with ha hb hc
  · have : ((n : ℚ) - 1) < ((⌊x⌋ : ℤ) : ℚ) := by linarith
    have : n - 1 < ⌊x⌋ := by exact_mod_cast this
    omega
  · have : ((n : ℚ) - 2) < ((⌊x⌋ : ℤ) : ℚ) := by linarith
    have : n - 2 < ⌊x⌋ := by exact_mod_cast this
    omega
  · have : ((n : ℚ) - 1) < ((⌊x⌋ : ℤ) : ℚ) := by linarith
    have : n - 1 < ⌊x⌋ := by exact_mod_cast this
    omega
  · have : ((n : ℚ) - 1) < ((⌊x⌋ : ℤ) : ℚ) := by linarith
    have : n - 1 < ⌊x⌋ := by exact_mod_cast this
    omega

/-- Rounding to nearest does not go above an integer that bounds the
argument. -/
theorem roundHalfEven_le (x : ℚ) (n : ℤ) (h : x ≤ (n : ℚ)) :
    roundHalfEven x ≤ n := by
  have h1 : ((⌊x⌋ : ℤ) : ℚ) ≤ x := Int.floor_le x
  have hfl : ⌊x⌋ ≤ n := by
    have : ((⌊x⌋ : ℤ) : ℚ) ≤ (n : ℚ) := le_trans h1 h
    exact_mod_cast this
  unfold roundHalfEven
  simp only
  split_ifs with ha hb hc
  · exact hfl
  · have : ((⌊x⌋ : ℤ) : ℚ) < (n : ℚ) := by linarith
    have : ⌊x⌋ < n := by exact_mod_cast this
    omega
  · exact hfl
  · have : ((⌊x⌋ : ℤ) : ℚ) < (n : ℚ) := by linarith
    have : ⌊x⌋ < n := by exact_mod_cast this
    omega


/-- The rounding of a positive rational, once its exponent and significand are
known and the result neither underflows to zero nor overflows. -/
theorem ofRat_of_pos (q : ℚ) (e m : ℤ) (hq : 0 < q) (he : floorLog2 q = e)
    (hmin : -1022 ≤ e) (hm : roundHalfEven (q / 2 ^ (e - 52)) = m) (hm0 : 0 < m)
    (hsmall : (m : ℚ) * 2 ^ (e - 52) < 2 ^ 1024) :
    Double.ofRat q = Double.finite ((m : ℚ) * 2 ^ (e - 52)) := by
  unfold Double.ofRat
  have hmax : max e (-1022) = e := max_eq_left hmin
  simp only [if_neg hq.ne', he, hmax, abs_of_pos hq, hm, if_neg (not_le.2 hsmall),
    if_neg hm0.ne', if_neg (not_lt.2 hq.le)]

/-- Rounding a rational between `10/110` and `1` to a double gives a finite
double between `10/110` and `1`. -/
theorem ofRat_inRange (q : ℚ) (hlo : 10 / 110 ≤ q) (hhi : q ≤ 1) :
    Double.InRange (10 / 110) 1 (Double.ofRat q) := by
  have hq : 0 < q := lt_of_lt_of_le (by norm_num) hlo
  obtain ⟨h1, h2⟩ := floorLog2_spec q hq
  have he_hi : floorLog2 q ≤ 0 := by
    by_contra hc
    push_neg at hc
    have h3 : (2 : ℚ) ^ (1 : ℤ) ≤ 2 ^ floorLog2 q :=
      zpow_le_zpow_right₀ (by norm_num) (by omega)
    norm_num at h3
    linarith
  have he_lo : -4 ≤ floorLog2 q := by
    by_contra hc
    push_neg at hc
    have h3 : (2 : ℚ) ^ (floorLog2 q + 1) ≤ 2 ^ (-4 : ℤ) :=
      zpow_le_zpow_right₀ (by norm_num) (by omega)
    norm_num at h3
    linarith
  obtain ⟨k, hek, hk52, hk56⟩ : ∃ k : ℕ, floorLog2 q = 52 - (k : ℤ) ∧ 52 ≤ k ∧ k ≤ 56 :=
    ⟨(52 - floorLog2 q).toNat, by omega, by omega, by omega⟩
  have hexp : (52 - (k : ℤ)) - 52 = -(k : ℤ) := by ring
  have hquant : (2 : ℚ) ^ ((52 - (k : ℤ)) - 52) = ((2 : ℚ) ^ k)⁻¹ := by
    rw [hexp, zpow_neg, zpow_natCast]
  have hpk : (0 : ℚ) < 2 ^ k := by positivity
  have hx : q / 2 ^ ((52 - (k : ℤ)) - 52) = q * 2 ^ k := by
    rw [hquant, div_inv_eq_mul]
  have hm_hi : roundHalfEven (q * 2 ^ k) ≤ (2 ^ k : ℤ) := by
    apply roundHalfEven_le
    push_cast
    calc q * 2 ^ k ≤ 1 * 2 ^ k := mul_le_mul_of_nonneg_right hhi hpk.le
      _ = 2 ^ k := one_mul _
  have hm_hiq : (roundHalfEven (q * 2 ^ k) : ℚ) ≤ 2 ^ k := by exact_mod_cast hm_hi
  have hm_lo : (2 ^ k : ℚ) ≤ 11 * (roundHalfEven (q * 2 ^ k) : ℚ) := by
    rw [hek] at h1
    interval_cases k
    · norm_num at h1
      have h := le_roundHalfEven (q * 2 ^ 52) (2 ^ 52) (by push_cast; linarith)
      have hc : ((2 ^ 52 : ℤ) : ℚ) ≤ (roundHalfEven (q * 2 ^ 52) : ℚ) := by exact_mod_cast h
      push_cast at hc
      linarith
    · norm_num at h1
      have h := le_roundHalfEven (q * 2 ^ 53) (2 ^ 52) (by push_cast; linarith)
      have hc : ((2 ^ 52 : ℤ) : ℚ) ≤ (roundHalfEven (q * 2 ^ 53) : ℚ) := by exact_mod_cast h
      push_cast at hc
      linarith
    · norm_num at h1
      have h := le_roundHalfEven (q * 2 ^ 54) (2 ^ 52) (by push_cast; linarith)
      have hc : ((2 ^ 52 : ℤ) : ℚ) ≤ (roundHalfEven (q * 2 ^ 54) : ℚ) := by exact_mod_cast h
      push_cast at hc
      linarith
    · norm_num at h1
      have h := le_roundHalfEven (q * 2 ^ 55) (2 ^ 52) (by push_cast; linarith)
      have hc : ((2 ^ 52 : ℤ) : ℚ) ≤ (roundHalfEven (q * 2 ^ 55) : ℚ) := by exact_mod_cast h
      push_cast at hc
      linarith
    · have h := le_roundHalfEven (q * 2 ^ 56) 6550690367084358 (by push_cast; linarith)
      have hc : ((6550690367084358 : ℤ) : ℚ) ≤ (roundHalfEven (q * 2 ^ 56) : ℚ) := by
        exact_mod_cast h
      push_cast at hc
      linarith
  have hm0 : 0 < roundHalfEven (q * 2 ^ k) := by
    have : (0 : ℚ) < (roundHalfEven (q * 2 ^ k) : ℚ) := by linarith
    exact_mod_cast this
  have hval : (roundHalfEven (q * 2 ^ k) : ℚ) * 2 ^ ((52 - (k : ℤ)) - 52) ≤ 1 := by
    rw [hquant, ← div_eq_mul_inv, div_le_one hpk]
    exact hm_hiq
  rw [ofRat_of_pos q (52 - (k : ℤ)) (roundHalfEven (q * 2 ^ k)) hq hek (by omega)
    (by rw [hx]) hm0 (lt_of_le_of_lt hval (by norm_num))]
  refine ⟨?_, hval⟩
  rw [hquant, ← div_eq_mul_inv, le_div_iff₀ hpk]
  linarith

/-- The double nearest to `10/110`. -/
theorem ofRat_ten_over_110 :
    Double.ofRat (10 / 110) = Double.finite (3275345183542179 / 2 ^ 55) := by
  decide!

/-- C5, as stated, fails: when the ping reports `algorithmProcess = 0`, the
value handed to `NProgress.set` is the double `3275345183542179 / 2 ^ 55`,
which is not the rational `10/110`. -/
theorem progressFraction_zero_is_rounded :
    (pingDoneCallback (initial "h")
        (ResponseBody.object ⟨Double.ofInt 0⟩)).state.effects
      = [Effect.nprogressSet (Double.finite (3275345183542179 / 2 ^ 55)),
          Effect.setTimeout 2500] ∧
      Double.finite (3275345183542179 / 2 ^ 55) ≠ Double.finite (10 / 110) := by
  constructor
  · have h := progressFraction_ofInt 0 (by decide) (by decide)
    have h10 : (((0 : ℤ) : ℚ) + 10) / 110 = 10 / 110 := by norm_num
    rw [h10, ofRat_ten_over_110] at h
    simp [pingDoneCallback, Completion.state, emit, initial, h]
  · intro h
    injection h with hq
    norm_num at hq

/-- C5, amended: for every integer `p` with `-2 ^ 53 < p` and `p + 10 < 2 ^ 53`
reported as `algorithmProcess`, the ping callback returns and hands
`NProgress.set` the double nearest to `(p + 10) / 110` (ties to even), and then
schedules the next poll after 2500 ms; for `0 ≤ p ≤ 100` that double is finite
and lies between `10/110` and `1`; it is `3275345183542179 / 2 ^ 55` at `p = 0`
and `1` at `p = 100`. -/
theorem pingDoneCallback_fraction (s : State) (p : ℤ) (hlo : -2 ^ 53 < p)
    (hhi : p + 10 < 2 ^ 53) :
    (∃ t, pingDoneCallback s (ResponseBody.object ⟨Double.ofInt p⟩)
          = Completion.returned t ∧
        t.effects = s.effects ++
          [Effect.nprogressSet (Double.ofRat (((p : ℚ) + 10) / 110)),
            Effect.setTimeout 2500]) ∧
      (0 ≤ p → p ≤ 100 →
        Double.InRange (10 / 110) 1 (Double.ofRat (((p : ℚ) + 10) / 110))) ∧
      Double.ofRat ((((0 : ℤ) : ℚ) + 10) / 110)
        = Double.finite (3275345183542179 / 2 ^ 55) ∧
      Double.ofRat ((((100 : ℤ) : ℚ) + 10) / 110) = Double.finite 1 := by
  refine ⟨⟨_, rfl, ?_⟩, ?_, ?_, ?_⟩
  · simp [emit, progressFraction_ofInt p hlo hhi]
  · intro h0 h100
    have h0q : (0 : ℚ) ≤ (p : ℚ) := by exact_mod_cast h0
    have h100q : (p : ℚ) ≤ 100 := by exact_mod_cast h100
    apply ofRat_inRange
    · rw [div_le_div_iff₀ (by norm_num) (by norm_num)]
      linarith
    · rw [div_le_one (by norm_num)]
      linarith
  · have h10 : (((0 : ℤ) : ℚ) + 10) / 110 = 10 / 110 := by norm_num
    rw [h10]
    exact ofRat_ten_over_110
  · have h1 : (((100 : ℤ) : ℚ) + 10) / 110 = ((1 : ℤ) : ℚ) := by norm_num
    rw [h1, ofRat_intCast 1 (by decide) (by decide)]
    norm_num

/-- Witness for the amended C5 at `algorithmProcess = 7`. -/
theorem pingDoneCallback_fraction_witness :
    (-2 ^ 53 < (7 : ℤ)) ∧ ((7 : ℤ) + 10 < 2 ^ 53) ∧ (0 : ℤ) ≤ 7 ∧ (7 : ℤ) ≤ 100 ∧
      (∃ t, pingDoneCallback (initial "h") (ResponseBody.object ⟨Double.ofInt 7⟩)
            = Completion.returned t ∧
          t.effects = (initial "h").effects ++
            [Effect.nprogressSet (Double.ofRat ((((7 : ℤ) : ℚ) + 10) / 110)),
              Effect.setTimeout 2500]) ∧
      Double.InRange (10 / 110) 1 (Double.ofRat ((((7 : ℤ) : ℚ) + 10) / 110)) :=
  ⟨by decide, by decide, by decide, by decide,
    (pingDoneCallback_fraction (initial "h") 7 (by decide) (by decide)).1,
    (pingDoneCallback_fraction (initial "h") 7 (by decide) (by decide)).2.1
      (by decide) (by decide)⟩

/-! ## The named triggers -/

/-- Two strings with a common front part are equal only if the rest is. -/
theorem append_left_ne (b x y : String) (h : x.data ≠ y.data) : b ++ x ≠ b ++ y := by
  intro he
  have hd := congrArg String.data he
  simp only [String.data_append] at hd
  exact h (List.append_cancel_left hd)

/-- C6: the three named triggers are `computeInBackground` applied to
base + /compute_bundles, base + /compute_network and
base + /compute_bundles_and_network, and nothing else; for every base URL the
three addresses are pairwise distinct. -/
theorem named_triggers_delegate (s : State) :
    computeBundles s = computeInBackground s (s.currentUrl ++ "/compute_bundles") ∧
      computeRoadNetwork s = computeInBackground s (s.currentUrl ++ "/compute_network") ∧
      computeBundlesAndRoadMap s =
        computeInBackground s (s.currentUrl ++ "/compute_bundles_and_network") ∧
      s.currentUrl ++ "/compute_bundles" ≠ s.currentUrl ++ "/compute_network" ∧
      s.currentUrl ++ "/compute_bundles" ≠ s.currentUrl ++ "/compute_bundles_and_network" ∧
      s.currentUrl ++ "/compute_network" ≠ s.currentUrl ++ "/compute_bundles_and_network" :=
  ⟨rfl, rfl, rfl, append_left_ne _ _ _ (by decide), append_left_ne _ _ _ (by decide),
    append_left_ne _ _ _ (by decide)⟩

/-! ## The poller -/

/-- C9: one invocation of `updateAlgorithmProgress` issues a GET to
base + /ping exactly when the running flag is true at its start, and then
exactly one, with nothing else logged; when the flag is false it returns the
state unchanged (no request, no NProgress call, no timer); in both cases the
flag, the outstanding trigger requests and the timers are left as they were. -/
theorem updateAlgorithmProgress_spec (s : State) :
    (s.runningAlgorithm = true →
        (updateAlgorithmProgress s).effects =
            s.effects ++ [Effect.getJSON (s.currentUrl ++ "/ping")] ∧
          (updateAlgorithmProgress s).pingRequests =
            s.pingRequests ++ [s.currentUrl ++ "/ping"]) ∧
      (s.runningAlgorithm = false → updateAlgorithmProgress s = s) ∧
      ((updateAlgorithmProgress s).effects ≠ s.effects ↔ s.runningAlgorithm = true) ∧
      (updateAlgorithmProgress s).runningAlgorithm = s.runningAlgorithm ∧
      (updateAlgorithmProgress s).triggerRequests = s.triggerRequests ∧
      (updateAlgorithmProgress s).timers = s.timers := by
  cases h : s.runningAlgorithm <;>
    simp [updateAlgorithmProgress, isAlgorithmRunning, emit, h]

/-- Witness for C9 in both branches: the initial state (flag false) and the
state right after `computeBundles` (flag true). -/
theorem updateAlgorithmProgress_spec_witness :
    (initial "h").runningAlgorithm = false ∧
      updateAlgorithmProgress (initial "h") = initial "h" ∧
      (computeBundles (initial "h")).runningAlgorithm = true ∧
      (updateAlgorithmProgress (computeBundles (initial "h"))).effects =
        (computeBundles (initial "h")).effects ++ [Effect.getJSON ("h" ++ "/ping")] :=
  ⟨rfl, (updateAlgorithmProgress_spec (initial "h")).2.1 rfl, rfl,
    ((updateAlgorithmProgress_spec (computeBundles (initial "h"))).1 rfl).1⟩

/-! ## Invariants of the event loop -/

/-- C7, at the failing input: `computeBundles` on a fresh page, then its request
is answered with the body `null`.  The state reached has the running flag true
and no trigger request outstanding, and a further trigger call issues no
request. -/
theorem flag_true_without_trigger_request :
    (run (initial "h") [Event.callComputeBundles,
        Event.triggerSettles 0 (TriggerOutcome.success ResponseBody.null)]).map
        (fun t => (t.runningAlgorithm, t.triggerRequests.length,
          (computeRoadNetwork t).triggerRequests.length))
      = some (true, 0, 0) := by
  decide

/-- Running two event sequences one after the other. -/
theorem run_append (s : State) (es fs : List Event) :
    run s (es ++ fs) = (run s es).bind (fun m => run m fs) := by
  induction es generalizing s with
  | nil => rfl
  | cons e es ih =>
      cases hs : step s e with
      | none => simp [run, hs]
      | some u => simp [run, hs, ih]

/-- The callbacks of a settling trigger request touch neither the ping requests
nor the timers, and either clear the flag or leave it as it was. -/
theorem settleTrigger_polls (s : State) (o : TriggerOutcome) :
    (settleTrigger s o).pingRequests = s.pingRequests ∧
      (settleTrigger s o).timers = s.timers ∧
      ((settleTrigger s o).runningAlgorithm = false ∨
        (settleTrigger s o).runningAlgorithm = s.runningAlgorithm) := by
  cases o with
  | success body =>
      cases body with
      | absent => simp [settleTrigger, triggerDoneCallback]
      | null => simp [settleTrigger, triggerDoneCallback]
      | object d =>
          by_cases hd : d.error.strictEqFalse = true <;>
            simp [settleTrigger, triggerAlwaysCallback, finishAlgorithm,
              triggerDoneCallback, emit, hd]
  | failure =>
      simp [settleTrigger, triggerAlwaysCallback, finishAlgorithm, triggerFailCallback, emit]

/-- The trigger keeps a poll pending whenever it leaves the flag true. -/
theorem computeInBackground_pollPending (s : State) (url : String)
    (h : s.runningAlgorithm = true → PollPending s) :
    (computeInBackground s url).runningAlgorithm = true →
      PollPending (computeInBackground s url) := by
  cases hr : s.runningAlgorithm with
  | true =>
      intro _
      simpa [computeInBackground, isAlgorithmRunning, hr] using h hr
  | false =>
      intro _
      left
      simp [computeInBackground, isAlgorithmRunning, hr, startAlgorithm,
        updateAlgorithmProgress, emit]

/-- Every turn of the event loop that does not end a poll chain keeps a poll
pending while the flag is true. -/
theorem step_pollPending (s t : State) (e : Event)
    (h : s.runningAlgorithm = true → PollPending s) (he : e.endsPollChain = false)
    (hs : step s e = some t) : t.runningAlgorithm = true → PollPending t := by
  cases e with
  | callComputeBundles =>
      simp only [step, Option.some.injEq] at hs
      subst hs
      exact computeInBackground_pollPending s _ h
  | callComputeRoadNetwork =>
      simp only [step, Option.some.injEq] at hs
      subst hs
      exact computeInBackground_pollPending s _ h
  | callComputeBundlesAndRoadMap =>
      simp only [step, Option.some.injEq] at hs
      subst hs
      exact computeInBackground_pollPending s _ h
  | callComputeInBackground url =>
      simp only [step, Option.some.injEq] at hs
      subst hs
      exact computeInBackground_pollPending s url h
  | triggerSettles i o =>
      by_cases hi : i < s.triggerRequests.length
      · simp only [step, hi, if_true, Option.some.injEq] at hs
        subst hs
        obtain ⟨hp, ht, hflag⟩ :=
          settleTrigger_polls { s with triggerRequests := s.triggerRequests.eraseIdx i } o
        intro hrun
        rcases hflag with hf | hf
        · rw [hf] at hrun
          exact absurd hrun (by decide)
        · rw [hf] at hrun
          have hps := h hrun
          unfold PollPending at hps ⊢
          rw [hp, ht]
          exact hps
      · simp [step, hi] at hs
  | pingResponds i body =>
      by_cases hi : i < s.pingRequests.length
      · simp only [step, hi, if_true, Option.some.injEq] at hs
        subst hs
        cases body with
        | absent => simp [Event.endsPollChain] at he
        | null => simp [Event.endsPollChain] at he
        | object d =>
            intro _
            right
            simp [pingDoneCallback, Completion.state, emit]
      · simp [step, hi] at hs
  | pingFails i => simp [Event.endsPollChain] at he
  | timerFires =>
      by_cases hi : 0 < s.timers
      · simp only [step, hi, if_true, Option.some.injEq] at hs
        subst hs
        cases hr : s.runningAlgorithm with
        | true =>
            intro _
            left
            simp [updateAlgorithmProgress, isAlgorithmRunning, emit, hr]
        | false =>
            intro hrun
            simp [updateAlgorithmProgress, isAlgorithmRunning, hr] at hrun
      · simp [step, hi] at hs

/-- Every run of the event loop in which no event ends a poll chain keeps a poll
pending while the flag is true. -/
theorem run_pollPending (es : List Event) (s t : State)
    (h : s.runningAlgorithm = true → PollPending s)
    (hok : ∀ e ∈ es, e.endsPollChain = false)
    (hr : run s es = some t) : t.runningAlgorithm = true → PollPending t := by
  induction es generalizing s with
  | nil =>
      simp only [run, Option.some.injEq] at hr
      subst hr
      exact h
  | cons e es ih =>
      cases hs : step s e with
      | none => simp [run, hs] at hr
      | some u =>
          simp only [run, hs] at hr
          exact ih u
            (step_pollPending s u e h (hok e (List.mem_cons_self e es)) hs)
            (fun x hx => hok x (List.mem_cons_of_mem e hx)) hr

/-- C8, as stated, fails: after `computeBundles` on a fresh page, when the first
ping request fails at transport level, the running flag is still true while no
ping request is outstanding and no re-invocation is scheduled. -/
theorem polling_stops_after_ping_failure :
    (run (initial "h") [Event.callComputeBundles, Event.pingFails 0]).map
        (fun s => (s.runningAlgorithm, s.pingRequests, s.timers, s.triggerRequests))
      = some (true, [], 0, ["h/compute_bundles"]) := by
  decide

/-- C8, amended: take any run from the initial state, and any moment of it at
which the running flag is false (the start of the run is one).  If from that
moment on no ping request fails at transport level or is answered with an
absent or `null` body, then in the state the run ends in, if the running flag
is true, a poll operation is pending (a ping request is outstanding or a
re-invocation of `updateAlgorithmProgress` is scheduled).  Ping failures before
that moment, in earlier jobs, do not matter. -/
theorem polling_continues_since_idle (base : String) (pre post : List Event)
    (mid s : State) (hpre : run (initial base) pre = some mid)
    (hidle : mid.runningAlgorithm = false)
    (hok : ∀ e ∈ post, e.endsPollChain = false)
    (hrun : run (initial base) (pre ++ post) = some s)
    (hr : s.runningAlgorithm = true) : PollPending s := by
  rw [run_append, hpre] at hrun
  exact run_pollPending post mid s (fun hm => by simp [hidle] at hm) hok hrun hr

/-- Witness for the amended C8: the first job loses its poll chain to a ping
failure and ends; the page is idle; a second job starts and its ping is
answered. -/
theorem polling_continues_since_idle_witness :
    run (initial "h") earlierJobEvents = some idleAfterEarlierJob ∧
      idleAfterEarlierJob.runningAlgorithm = false ∧
      (∀ e ∈ laterJobEvents, e.endsPollChain = false) ∧
      run (initial "h") (earlierJobEvents ++ laterJobEvents) = some duringLaterJob ∧
      duringLaterJob.runningAlgorithm = true ∧
      PollPending duringLaterJob :=
  ⟨rfl, rfl, by decide, rfl, rfl,
    polling_continues_since_idle "h" earlierJobEvents laterJobEvents
      idleAfterEarlierJob duringLaterJob rfl rfl (by decide) rfl rfl⟩

/-- C10: the poller does not keep a single poll chain.  On every page, after
trigger A, the settlement of A's request, the response to A's ping, trigger B
and the firing of the scheduled re-invocation, two ping requests are
outstanding at once.  After the first three events the flag is false and one
re-invocation is scheduled: the ping callback schedules it whatever the flag
is, and trigger B then starts a ping request of its own. -/
theorem two_ping_requests_outstanding (base : String) :
    (∃ s, run (initial base) (overlapScenario.take 3) = some s ∧
        s.runningAlgorithm = false ∧ s.timers = 1 ∧ s.pingRequests = []) ∧
      (∃ s, run (initial base) (overlapScenario.take 4) = some s ∧
        s.runningAlgorithm = true ∧ s.timers = 1 ∧
        s.pingRequests = [base ++ "/ping"]) ∧
      (∃ s, run (initial base) overlapScenario = some s ∧
        s.runningAlgorithm = true ∧ s.timers = 0 ∧
        s.pingRequests = [base ++ "/ping", base ++ "/ping"] ∧
        s.triggerRequests = [base ++ "/compute_network"]) ∧
      (∀ (s : State) (d : PingResponse),
        ∃ t, pingDoneCallback s (ResponseBody.object d) = Completion.returned t ∧
          t.timers = s.timers + 1 ∧ t.runningAlgorithm = s.runningAlgorithm) := by
  refine ⟨⟨_, rfl, rfl, rfl, rfl⟩, ⟨_, rfl, rfl, rfl, rfl⟩, ⟨_, rfl, rfl, rfl, rfl, rfl⟩, ?_⟩
  intro s d
  exact ⟨_, rfl, by simp [emit], by simp [emit]⟩

end MenuCompute
